import Mathlib

/-!
Verification of the offset-stable batch mutation planner and the A1 range
parser of `src/server.py` (google-workspace-mcp).

Shallow embedding conventions:
* Python strings are lists of Unicode code points (`List Nat`); the document
  body text manipulated by the emitted Google Docs requests is likewise a
  `List Nat`.
* Python ints are `Int` where a value can be negative (row/column indices,
  grid bounds), `Nat` for document character offsets.
* A Python function that can raise is embedded with `Except Unit`.
* Dictionary `.get(key, default)` on optional wire fields is embedded as
  `Option.getD`.
-/

/-! ## Batch mutation planner (`write_table_bulk`, server.py:2162-2225)

`write_table_bulk` resolves each requested cell to its content range
`(start_idx, end_idx)`, sorts the resolved records by `start_idx` descending
(Python's stable `list.sort` with `reverse=True`), and for each record emits
`deleteContentRange(start_idx, end_idx - 1)` (only when `replace_existing`
and `end_idx > start_idx + 1`) followed by `insertText(start_idx, text)`.
-/

/-- One resolved entry of the `cell_data` list built by `write_table_bulk`:
the cell's content range against the snapshot and the replacement text. -/
structure CellData where
  start_idx : Nat
  end_idx : Nat
  text : List Nat
deriving Repr, DecidableEq

/-- A primitive Google Docs batch request emitted by the planner:
`deleteRange a b` is `deleteContentRange {startIndex: a, endIndex: b}`
(half-open, deletes `[a, b)`); `insertAt p t` is
`insertText {location: p, text: t}`. -/
inductive PrimitiveOp where
  | deleteRange (s e : Nat)
  | insertAt (p : Nat) (t : List Nat)
deriving Repr, DecidableEq

/-- Effect of one primitive op on the document text, positions interpreted
against the current state. -/
def applyOp (d : List Nat) : PrimitiveOp → List Nat
  | .deleteRange a b => d.take a ++ d.drop b
  | .insertAt p t => d.take p ++ t ++ d.drop p

/-- Apply an op list in list order, each op against the state produced by
all prior ops. -/
def applyOps (d : List Nat) (ops : List PrimitiveOp) : List Nat :=
  ops.foldl applyOp d

/-- The ops `write_table_bulk` emits for one resolved cell (server.py
2197-2218): a `deleteContentRange` keeping the trailing newline when
`replace_existing` and the cell has a non-empty body, then the `insertText`. -/
def opsFor (repl : Bool) (c : CellData) : List PrimitiveOp :=
  (if repl ∧ c.start_idx + 1 < c.end_idx
   then [.deleteRange c.start_idx (c.end_idx - 1)]
   else []) ++ [.insertAt c.start_idx c.text]

/-- Stable insertion into a list sorted by `start_idx` descending: an element
is placed before the first element whose key is ≤ its own, so equal keys keep
their original relative order, exactly as Python's stable
`sort(key=..., reverse=True)`. -/
def insertDesc (c : CellData) : List CellData → List CellData
  | [] => [c]
  | d :: ds => if d.start_idx ≤ c.start_idx then c :: d :: ds else d :: insertDesc c ds

/-- Stable sort by `start_idx` descending, embedding
`cell_data.sort(key=lambda x: x['start_idx'], reverse=True)` (server.py:2195). -/
def sortDesc : List CellData → List CellData
  | [] => []
  | c :: cs => insertDesc c (sortDesc cs)

/-- The `requests` list built by the loop at server.py:2197-2218: the
concatenation of each cell's op group in list order. -/
def concatOps (repl : Bool) : List CellData → List PrimitiveOp
  | [] => []
  | c :: cs => opsFor repl c ++ concatOps repl cs

/-- The full op list `write_table_bulk` emits for a resolved `cell_data`
list: sort descending by `start_idx`, then concatenate the per-cell groups. -/
def planOps (repl : Bool) (cd : List CellData) : List PrimitiveOp :=
  concatOps repl (sortDesc cd)

/-! ## Document model and cell locator (`_get_cell_content_indexes`,
server.py:1985-2001)

The relevant slice of a Google Docs document: `body.content` is a list of
structural elements; a table element carries `tableRows`, each row
`tableCells`, each cell a `content` list of sub-elements with `startIndex` /
`endIndex` wire fields (absent fields are `none`). -/

/-- A structural sub-element inside a table cell, with its optional
`startIndex` / `endIndex` wire fields. -/
structure CellElem where
  startIndex : Option Nat
  endIndex : Option Nat
deriving Repr, DecidableEq

/-- A table cell: its `content` list of sub-elements. -/
structure TableCell where
  content : List CellElem
deriving Repr, DecidableEq

/-- A table row: its `tableCells` list. -/
structure TableRow where
  tableCells : List TableCell
deriving Repr, DecidableEq

/-- A table: its `tableRows` list. -/
structure PyTable where
  tableRows : List TableRow
deriving Repr, DecidableEq

/-- One element of `body.content`: either a non-table element (paragraph,
section break, ...) or a table, each with its optional `startIndex`. -/
inductive BodyElement where
  | para (startIndex : Option Nat)
  | table (startIndex : Option Nat) (t : PyTable)
deriving Repr, DecidableEq

/-- Python list indexing `l[i]`: non-negative indices from the front,
negative indices from the end; `none` means the access raises `IndexError`. -/
def pyIndex {α : Type} (l : List α) (i : Int) : Option α :=
  if 0 ≤ i then l.get? i.toNat
  else if -i ≤ (l.length : Int) then l.get? (l.length - (-i).toNat) else none

/-- The `(start, end)` pair `_get_cell_content_indexes` computes from a
cell's `content` list: the first sub-element's `startIndex` (default 0) and
the last sub-element's `endIndex` (default `start + 1`); `none` when the
`content` list is empty (the loop falls through). -/
def cellRange (c : TableCell) : Option (Nat × Nat) :=
  match c.content with
  | [] => none
  | e0 :: es =>
      let s := e0.startIndex.getD 0
      some (s, ((e0 :: es).getLast (List.cons_ne_nil e0 es)).endIndex.getD (s + 1))

/-- `_get_cell_content_indexes(doc, table_start_index, row_index,
column_index)` (server.py:1985-2001): scan `body.content` for a table whose
`startIndex` equals the anchor; check `row_index < len(tableRows)` and
`column_index < len(tableCells)` (Python `<` on possibly negative ints), then
index (negative indices count from the end and can raise `IndexError`,
embedded as `.error ()`); on any failed check or empty cell content the scan
continues, and exhausting the list returns `(None, None)`, embedded as
`.ok none`. -/
def lookupCell (content : List BodyElement) (anchor : Nat) (row col : Int) :
    Except Unit (Option (Nat × Nat)) :=
  match content with
  | [] => .ok none
  | .para _ :: rest => lookupCell rest anchor row col
  | .table si t :: rest =>
      if si = some anchor then
        if row < (t.tableRows.length : Int) then
          match pyIndex t.tableRows row with
          | none => .error ()
          | some r =>
              if col < (r.tableCells.length : Int) then
                match pyIndex r.tableCells col with
                | none => .error ()
                | some cell =>
                    match cellRange cell with
                    | none => lookupCell rest anchor row col
                    | some se => .ok (some se)
              else lookupCell rest anchor row col
        else lookupCell rest anchor row col
      else lookupCell rest anchor row col

/-- The tables of `body.content` whose `startIndex` equals the anchor. -/
def anchorTables (content : List BodyElement) (anchor : Nat) : List PyTable :=
  content.filterMap fun e =>
    match e with
    | .table (some a) t => if a = anchor then some t else none
    | _ => none

/-- One entry of the `cells` argument of `write_table_bulk`: requested row,
column and replacement text. -/
structure CellReq where
  row : Int
  column : Int
  text : List Nat
deriving Repr, DecidableEq

/-- The `cell_data` collection loop of `write_table_bulk` (server.py
2171-2188): resolve each requested cell, keep those whose lookup found a
range, silently drop the ones that report `(None, None)`, propagate a raised
`IndexError`. -/
def resolveCells (content : List BodyElement) (anchor : Nat) :
    List CellReq → Except Unit (List CellData)
  | [] => .ok []
  | c :: cs =>
      match lookupCell content anchor c.row c.column with
      | .error e => .error e
      | .ok none => resolveCells content anchor cs
      | .ok (some (s, e)) =>
          match resolveCells content anchor cs with
          | .error err => .error err
          | .ok rest => .ok (⟨s, e, c.text⟩ :: rest)

/-- `write_table_bulk` (server.py:2162-2225) up to the external batch call:
resolve the requested cells, return the "could not find any cells" error
(embedded `.ok none`) when nothing resolved, otherwise emit the planned op
list for the resolved records. -/
def write_table_bulk (content : List BodyElement) (anchor : Nat)
    (cells : List CellReq) (repl : Bool) :
    Except Unit (Option (List PrimitiveOp)) :=
  match resolveCells content anchor cells with
  | .error e => .error e
  | .ok [] => .ok none
  | .ok cd => .ok (some (planOps repl cd))

/-! ## Intended semantics of a planned batch

`sliceD d a b` is the snapshot text of the half-open range `[a, b)`;
`intendedSegs` rebuilds the document from an ascending list of disjoint
targets: untouched snapshot text between targets, and for each target the
content the planner intends to leave there. -/

/-- The text of snapshot `d` in the half-open range `[a, b)`. -/
def sliceD (d : List Nat) (a b : Nat) : List Nat :=
  (d.drop a).take (b - a)

/-- The content a target is intended to leave in its snapshot range
`[start_idx, end_idx)`: with `replace_existing` and a non-empty body, the new
text followed by the preserved trailing terminator `[end_idx - 1, end_idx)`;
otherwise the new text inserted before the untouched range content. -/
def replContent (repl : Bool) (d : List Nat) (c : CellData) : List Nat :=
  if repl ∧ c.start_idx + 1 < c.end_idx
  then c.text ++ sliceD d (c.end_idx - 1) c.end_idx
  else c.text ++ sliceD d c.start_idx c.end_idx

/-- The document rebuilt from snapshot `d` and an ascending list of disjoint
targets, starting at offset `pos`: snapshot text up to each target's start,
the target's intended content over its range, and the snapshot tail after the
last target. -/
def intendedSegs (repl : Bool) (d : List Nat) (pos : Nat) :
    List CellData → List Nat
  | [] => d.drop pos
  | c :: cs =>
      sliceD d pos c.start_idx ++ replContent repl d c ++
        intendedSegs repl d c.end_idx cs

/-! ## A1 range notation parser (`_parse_a1_range`, server.py:2814-2854)

`_parse_a1_range` strips an optional `SheetName!` prefix, uppercases the
remainder, matches it against the anchored regular expression
`([A-Z]*)(\d*):?([A-Z]*)(\d*)` (raising `ValueError` on no match), and
builds a GridRange dict from the four capture groups. -/

/-- Code point class `[A-Z]` of the pattern. -/
def isLetter (n : Nat) : Bool := decide (65 ≤ n ∧ n ≤ 90)

/-- Code point class `[0-9]` of the pattern. -/
def isDigitCp (n : Nat) : Bool := decide (48 ≤ n ∧ n ≤ 57)

/-- Python `str.upper()`, code-point-wise on the ASCII range the parser
distinguishes: lowercase letters map to uppercase, all other relevant code
points are fixed. -/
def toUpperCp (n : Nat) : Nat := if 97 ≤ n ∧ n ≤ 122 then n - 32 else n

/-- The sheet-prefix strip `range_str.split('!')[1]`, applied when `'!'`
(code point 33) occurs: the segment between the first `'!'` and the next
`'!'` or the end of the string. -/
def stripSheet (s : List Nat) : List Nat :=
  if 33 ∈ s then ((s.dropWhile (fun c => c != 33)).tail).takeWhile (fun c => c != 33)
  else s

/-- The deterministic greedy match of the anchored pattern
`([A-Z]*)(\d*):?([A-Z]*)(\d*)` (code point 58 is `':'`), returning the four
capture groups, or `none` when the string is not matched. Because the
character classes of adjacent groups are disjoint, the regex engine's
backtracking search succeeds exactly when this maximal-munch pass does
(proved against `MatchesGridPattern` below). -/
def gridMatch (s : List Nat) :
    Option (List Nat × List Nat × List Nat × List Nat) :=
  let g1 := s.takeWhile isLetter
  let r1 := s.dropWhile isLetter
  let g2 := r1.takeWhile isDigitCp
  let r2 := r1.dropWhile isDigitCp
  let r2' := if r2.head? = some 58 then r2.tail else r2
  let g3 := r2'.takeWhile isLetter
  let r3 := r2'.dropWhile isLetter
  let g4 := r3.takeWhile isDigitCp
  let r4 := r3.dropWhile isDigitCp
  if r4 = [] then some (g1, g2, g3, g4) else none

/-- `col_to_index` before the final decrement: left fold
`value = value*26 + (letter - 'A' + 1)` over the column letters. -/
def colValue (c : List Nat) : Nat :=
  c.foldl (fun acc x => acc * 26 + (x - 65 + 1)) 0

/-- `col_to_index`: the base-26 column value, minus 1 for a 0-based index. -/
def colIndex (c : List Nat) : Int := (colValue c : Int) - 1

/-- Python `int` on a non-empty digit string. -/
def natOfDigits (r : List Nat) : Nat :=
  r.foldl (fun acc x => acc * 10 + (x - 48)) 0

/-- The GridRange dict built by `_parse_a1_range`; a `none` field is a key
absent from the dict. -/
structure GridRange where
  sheetId : Int
  startRowIndex : Option Int
  endRowIndex : Option Int
  startColumnIndex : Option Int
  endColumnIndex : Option Int
deriving Repr, DecidableEq

/-- `_parse_a1_range(range_str, sheet_id)` (server.py:2814-2854); `none` is
the raised `ValueError`. Bounds mirror the source: start column/row are
0-based (`col_to_index`, `int(...) - 1`), the end column/row are exclusive
(`col_to_index + 1`, `int(...)`), and a missing end falls back to the start
token (`elif start_col` / `elif start_row`). -/
def parse_a1_range (s : List Nat) (sheet_id : Int) : Option GridRange :=
  match gridMatch ((stripSheet s).map toUpperCp) with
  | none => none
  | some (g1, g2, g3, g4) =>
      some { sheetId := sheet_id
             startRowIndex :=
               if g2 ≠ [] then some ((natOfDigits g2 : Int) - 1) else none
             endRowIndex :=
               if g4 ≠ [] then some (natOfDigits g4 : Int)
               else if g2 ≠ [] then some (natOfDigits g2 : Int) else none
             startColumnIndex := if g1 ≠ [] then some (colIndex g1) else none
             endColumnIndex :=
               if g3 ≠ [] then some (colIndex g3 + 1)
               else if g1 ≠ [] then some (colIndex g1 + 1) else none }

/-- Membership in the language of the anchored pattern
`([A-Z]*)(\d*):?([A-Z]*)(\d*)`: some decomposition into a letter run, a
digit run, an optional colon, a second letter run and a second digit run. -/
def MatchesGridPattern (s : List Nat) : Prop :=
  ∃ a b c d : List Nat,
    (∀ x ∈ a, isLetter x) ∧ (∀ x ∈ b, isDigitCp x) ∧
    (∀ x ∈ c, isLetter x) ∧ (∀ x ∈ d, isDigitCp x) ∧
    (s = a ++ b ++ (c ++ d) ∨ s = a ++ b ++ 58 :: (c ++ d))

/-- The residual string left over by the greedy pass of `gridMatch`;
`gridMatch` succeeds exactly when it is empty. -/
def munchRest (s : List Nat) : List Nat :=
  let r1 := s.dropWhile isLetter
  let r2 := r1.dropWhile isDigitCp
  let r2' := if r2.head? = some 58 then r2.tail else r2
  let r3 := r2'.dropWhile isLetter
  r3.dropWhile isDigitCp

theorem applyOps_opsFor (repl : Bool) (d : List Nat) (c : CellData)
    (hs : c.start_idx ≤ d.length) (hse : c.start_idx < c.end_idx) :
    applyOps d (opsFor repl c) =
      d.take c.start_idx ++ replContent repl d c ++ d.drop c.end_idx := by
  have hlen : (d.take c.start_idx).length = c.start_idx := by
    simp [List.length_take, Nat.min_eq_left hs]
  by_cases h : repl ∧ c.start_idx + 1 < c.end_idx
  · simp only [opsFor, if_pos h, applyOps, List.singleton_append, List.foldl_cons,
      List.foldl_nil, applyOp, replContent]
    rw [List.take_left' hlen, List.drop_left' hlen]
    have h1 : c.end_idx - (c.end_idx - 1) = 1 := by omega
    have h2 : d.drop c.end_idx = (d.drop (c.end_idx - 1)).drop 1 := by
      rw [List.drop_drop]; congr 1; omega
    have hX : sliceD d (c.end_idx - 1) c.end_idx ++ d.drop c.end_idx =
        d.drop (c.end_idx - 1) := by
      rw [sliceD, h1, h2, List.take_append_drop]
    simp only [List.append_assoc, hX]
  · simp only [opsFor, if_neg h, applyOps, List.nil_append, List.foldl_cons,
      List.foldl_nil, applyOp, replContent]
    have h2 : d.drop c.end_idx = (d.drop c.start_idx).drop (c.end_idx - c.start_idx) := by
      rw [List.drop_drop]; congr 1; omega
    have hX : sliceD d c.start_idx c.end_idx ++ d.drop c.end_idx =
        d.drop c.start_idx := by
      rw [sliceD, h2, List.take_append_drop]
    simp only [List.append_assoc, hX]

theorem sliceD_take_append (d X : List Nat) (s x y : Nat) (hy : y ≤ s)
    (hs : s ≤ d.length) : sliceD (d.take s ++ X) x y = sliceD d x y := by
  have hlen : (d.take s).length = s := by
    simp [List.length_take, Nat.min_eq_left hs]
  by_cases hxy : y ≤ x
  · have h0 : y - x = 0 := by omega
    simp [sliceD, h0]
  · push_neg at hxy
    have hxs : x ≤ s := by omega
    rw [sliceD, sliceD, List.drop_append_eq_append_drop, hlen,
      Nat.sub_eq_zero_of_le hxs, List.drop_zero,
      List.take_append_eq_append_take, List.drop_take]
    have hlen2 : ((d.drop x).take (s - x)).length = s - x := by
      simp [List.length_take, List.length_drop]
      omega
    rw [hlen2, Nat.sub_eq_zero_of_le (by omega : y - x ≤ s - x),
      List.take_zero, List.append_nil, List.take_take]
    congr 1
    omega

theorem intendedSegs_shift (repl : Bool) (d : List Nat) (c : CellData)
    (hs : c.start_idx ≤ d.length) (A : List CellData) :
    ∀ (pos : Nat),
      A.Pairwise (fun a b => a.end_idx ≤ b.start_idx) →
      (∀ t ∈ A, t.start_idx < t.end_idx ∧ t.end_idx ≤ c.start_idx) →
      pos ≤ c.start_idx →
      intendedSegs repl
          (d.take c.start_idx ++ (replContent repl d c ++ d.drop c.end_idx)) pos A
        = intendedSegs repl d pos (A ++ [c]) := by
  have hlen : (d.take c.start_idx).length = c.start_idx := by
    simp [List.length_take, Nat.min_eq_left hs]
  induction A with
  | nil =>
      intro pos _ _ hpos
      simp only [intendedSegs, List.nil_append]
      rw [List.drop_append_eq_append_drop, hlen, Nat.sub_eq_zero_of_le hpos,
        List.drop_zero, List.drop_take, sliceD]
      simp [List.append_assoc]
  | cons t ts ih =>
      intro pos hpw hmem hpos
      have hmt := hmem t (List.mem_cons_self t ts)
      have hslice1 : sliceD
          (d.take c.start_idx ++ (replContent repl d c ++ d.drop c.end_idx))
          pos t.start_idx = sliceD d pos t.start_idx :=
        sliceD_take_append d _ _ pos t.start_idx (by omega) hs
      have hrc : replContent repl
          (d.take c.start_idx ++ (replContent repl d c ++ d.drop c.end_idx)) t
          = replContent repl d t := by
        by_cases h' : repl ∧ t.start_idx + 1 < t.end_idx
        · simp only [replContent, if_pos h']
          rw [sliceD_take_append d _ _ _ _ (by omega) hs]
        · simp only [replContent, if_neg h']
          rw [sliceD_take_append d _ _ _ _ (by omega) hs]
      have htail := ih t.end_idx (List.Pairwise.of_cons hpw)
        (fun u hu => hmem u (List.mem_cons_of_mem t hu))
        (by omega)
      simp only [intendedSegs, List.cons_append, hslice1, hrc, htail, List.append_eq]

theorem concatOps_sound (repl : Bool) :
    ∀ (ds : List CellData) (d : List Nat),
      ds.Pairwise (fun a b => b.end_idx ≤ a.start_idx) →
      (∀ c ∈ ds, c.start_idx < c.end_idx ∧ c.end_idx ≤ d.length) →
      applyOps d (concatOps repl ds) = intendedSegs repl d 0 ds.reverse := by
  intro ds
  induction ds with
  | nil => intro d _ _; simp [concatOps, applyOps, intendedSegs]
  | cons c cs ih =>
      intro d hpw hok
      have hc := hok c (List.mem_cons_self c cs)
      have hs : c.start_idx ≤ d.length := by omega
      have hhead : ∀ b ∈ cs, b.end_idx ≤ c.start_idx :=
        (List.pairwise_cons.mp hpw).1
      have hstep : applyOps d (concatOps repl (c :: cs)) =
          applyOps (applyOps d (opsFor repl c)) (concatOps repl cs) := by
        simp only [concatOps, applyOps, List.foldl_append]
      rw [hstep, applyOps_opsFor repl d c hs hc.1, List.append_assoc]
      have hd1len : c.start_idx ≤
          (d.take c.start_idx ++ (replContent repl d c ++ d.drop c.end_idx)).length := by
        simp only [List.length_append, List.length_take]
        omega
      rw [ih _ (List.Pairwise.of_cons hpw)
        (fun u hu => ⟨(hok u (List.mem_cons_of_mem c hu)).1,
          le_trans (hhead u hu) hd1len⟩)]
      rw [intendedSegs_shift repl d c hs cs.reverse 0
        (List.pairwise_reverse.mpr (List.Pairwise.of_cons hpw))
        (fun u hu => ⟨(hok u (List.mem_cons_of_mem c (List.mem_reverse.mp hu))).1,
          hhead u (List.mem_reverse.mp hu)⟩)
        (Nat.zero_le _)]
      rw [List.reverse_cons]

theorem insertDesc_perm (c : CellData) (l : List CellData) :
    (insertDesc c l).Perm (c :: l) := by
  induction l with
  | nil => simp [insertDesc]
  | cons d ds ih =>
      by_cases h : d.start_idx ≤ c.start_idx
      · simp [insertDesc, h]
      · simp only [insertDesc, if_neg h]
        exact (ih.cons d).trans (List.Perm.swap c d ds)

theorem sortDesc_perm (l : List CellData) : (sortDesc l).Perm l := by
  induction l with
  | nil => simp [sortDesc]
  | cons c cs ih =>
      exact (insertDesc_perm c (sortDesc cs)).trans (ih.cons c)

theorem insertDesc_sorted (c : CellData) (l : List CellData)
    (hl : l.Pairwise (fun a b => b.start_idx ≤ a.start_idx)) :
    (insertDesc c l).Pairwise (fun a b => b.start_idx ≤ a.start_idx) := by
  induction l with
  | nil => simp [insertDesc]
  | cons d ds ih =>
      rcases List.pairwise_cons.mp hl with ⟨hd, hds⟩
      by_cases h : d.start_idx ≤ c.start_idx
      · simp only [insertDesc, if_pos h]
        exact List.pairwise_cons.mpr
          ⟨fun u hu => by
            rcases List.mem_cons.mp hu with rfl | hu
            · exact h
            · exact le_trans (hd u hu) h,
           hl⟩
      · simp only [insertDesc, if_neg h]
        exact List.pairwise_cons.mpr
          ⟨fun u hu => by
            rcases List.mem_cons.mp ((insertDesc_perm c ds).mem_iff.mp hu) with rfl | hu
            · exact Nat.le_of_lt (Nat.lt_of_not_le h)
            · exact hd u hu,
           ih hds⟩

theorem sortDesc_sorted (l : List CellData) :
    (sortDesc l).Pairwise (fun a b => b.start_idx ≤ a.start_idx) := by
  induction l with
  | nil => simp [sortDesc]
  | cons c cs ih => exact insertDesc_sorted c (sortDesc cs) ih

/-- C1: applying the op list emitted by `write_table_bulk`'s planner in list
order, each op against the state produced by the prior ops, rebuilds the
document with every target's content at exactly the snapshot location the
target specified; the result depends only on the (unique) ascending
arrangement of the pairwise-disjoint targets, not on their input order. -/
theorem write_table_bulk_places_each_target (repl : Bool) (d : List Nat)
    (cd asc : List CellData)
    (hperm : asc.Perm cd)
    (hasc : asc.Pairwise (fun a b => a.end_idx ≤ b.start_idx))
    (hok : ∀ c ∈ cd, c.start_idx < c.end_idx ∧ c.end_idx ≤ d.length) :
    applyOps d (planOps repl cd) = intendedSegs repl d 0 asc := by
  have hsperm : (sortDesc cd).Perm cd := sortDesc_perm cd
  have hmem : ∀ c ∈ sortDesc cd, c.start_idx < c.end_idx ∧ c.end_idx ≤ d.length :=
    fun c hc => hok c (hsperm.mem_iff.mp hc)
  have hsym : Symmetric
      (fun a b : CellData => a.end_idx ≤ b.start_idx ∨ b.end_idx ≤ a.start_idx) :=
    fun a b h => h.symm
  have hdisj2 : (sortDesc cd).Pairwise
      (fun a b => a.end_idx ≤ b.start_idx ∨ b.end_idx ≤ a.start_idx) :=
    ((hperm.pairwise_iff (fun h => Or.symm h)).mp (hasc.imp fun h => Or.inl h)).perm
      hsperm.symm (fun h => Or.symm h)
  have hdesc : (sortDesc cd).Pairwise (fun a b => b.end_idx ≤ a.start_idx) := by
    refine (hdisj2.and (sortDesc_sorted cd)).imp_of_mem ?_
    intro a b ha hb h
    rcases h.1 with h1 | h1
    · have h2 := (hmem a ha).1
      omega
    · exact h1
  have hmain := concatOps_sound repl (sortDesc cd) d hdesc hmem
  have hrev : asc = (sortDesc cd).reverse := by
    have hperm2 : asc.Perm ((sortDesc cd).reverse) :=
      (hperm.trans hsperm.symm).trans ((sortDesc cd).reverse_perm).symm
    have hr : ((sortDesc cd).reverse).Pairwise
        (fun a b => a.end_idx ≤ b.start_idx ∧
          a.start_idx < a.end_idx ∧ b.start_idx < b.end_idx) := by
      refine (List.pairwise_reverse.mpr hdesc).imp_of_mem ?_
      intro a b ha hb h
      exact ⟨h, (hmem a (List.mem_reverse.mp ha)).1,
        (hmem b (List.mem_reverse.mp hb)).1⟩
    have hl : asc.Pairwise
        (fun a b => a.end_idx ≤ b.start_idx ∧
          a.start_idx < a.end_idx ∧ b.start_idx < b.end_idx) := by
      refine hasc.imp_of_mem ?_
      intro a b ha hb h
      exact ⟨h, (hok a (hperm.subset ha)).1, (hok b (hperm.subset hb)).1⟩
    haveI : IsAntisymm CellData
        (fun a b => a.end_idx ≤ b.start_idx ∧
          a.start_idx < a.end_idx ∧ b.start_idx < b.end_idx) :=
      ⟨fun a b h1 h2 => by
        obtain ⟨x1, x2, x3⟩ := h1
        obtain ⟨y1, _, _⟩ := h2
        omega⟩
    exact List.eq_of_perm_of_sorted hperm2 hl hr
  rw [planOps, hmain, hrev]

/-- Witness for C1 at a concrete snapshot and two disjoint targets given in
ascending input order. -/
theorem write_table_bulk_places_each_target_witness :
    applyOps [100, 101, 102, 103, 104, 105, 106, 107]
        (planOps true [⟨1, 3, [88]⟩, ⟨4, 6, [89, 90]⟩]) =
      intendedSegs true [100, 101, 102, 103, 104, 105, 106, 107] 0
        [⟨1, 3, [88]⟩, ⟨4, 6, [89, 90]⟩] :=
  write_table_bulk_places_each_target true _ _ _
    (by decide) (by decide) (by decide)

/-- C2: the op list `write_table_bulk` emits is the concatenation of one op
group per resolved target, the groups arranged in strictly descending order
of their targets' original start offsets (when those offsets are distinct);
concretely, start offsets 10, 50, 30 yield groups in the order 50, 30, 10. -/
theorem planOps_groups_strictly_descending (repl : Bool) (cd : List CellData)
    (hnd : (cd.map (fun c => c.start_idx)).Nodup) :
    (∃ g : List CellData, g.Perm cd ∧ planOps repl cd = concatOps repl g ∧
      g.Pairwise (fun a b => b.start_idx < a.start_idx)) ∧
    planOps true [⟨10, 12, [65]⟩, ⟨50, 52, [66]⟩, ⟨30, 32, [67]⟩] =
      [.deleteRange 50 51, .insertAt 50 [66],
       .deleteRange 30 31, .insertAt 30 [67],
       .deleteRange 10 11, .insertAt 10 [65]] := by
  constructor
  · refine ⟨sortDesc cd, sortDesc_perm cd, rfl, ?_⟩
    have h1 : ((sortDesc cd).map (fun c => c.start_idx)).Nodup :=
      ((sortDesc_perm cd).map (fun c => c.start_idx)).nodup_iff.mpr hnd
    have hne : (sortDesc cd).Pairwise (fun a b => a.start_idx ≠ b.start_idx) :=
      List.pairwise_map.mp h1
    refine ((sortDesc_sorted cd).and hne).imp ?_
    intro a b h
    omega
  · decide

/-- Witness for C2 at three targets with distinct start offsets. -/
theorem planOps_groups_strictly_descending_witness :
    ∃ g : List CellData,
      g.Perm [⟨4, 6, [89]⟩, ⟨1, 3, [88]⟩] ∧
      planOps true [⟨4, 6, [89]⟩, ⟨1, 3, [88]⟩] = concatOps true g ∧
      g.Pairwise (fun a b => b.start_idx < a.start_idx) :=
  (planOps_groups_strictly_descending true
    [⟨4, 6, [89]⟩, ⟨1, 3, [88]⟩] (by decide)).1

/-- C3: for a replace-mode target over cell content range `[s, e)`,
`write_table_bulk` emits `DeleteRange(s, e-1)` then `InsertAt(s, text)` when
`e > s + 1`, and only `InsertAt(s, text)` when `e ≤ s + 1`; in particular a
replace over `[20, 25)` deletes `[20, 24)` and never touches position 24. -/
theorem opsFor_replace_shape (s e : Nat) (tx : List Nat) :
    (s + 1 < e →
      opsFor true ⟨s, e, tx⟩ = [.deleteRange s (e - 1), .insertAt s tx]) ∧
    (e ≤ s + 1 → opsFor true ⟨s, e, tx⟩ = [.insertAt s tx]) ∧
    opsFor true ⟨20, 25, tx⟩ = [.deleteRange 20 24, .insertAt 20 tx] := by
  refine ⟨fun h => ?_, fun h => ?_, ?_⟩
  · simp [opsFor, h]
  · simp [opsFor, Nat.not_lt.mpr h]
  · simp [opsFor]

/-- Witness for C3: a replace over `[20, 25)` and one over the bodiless
range `[7, 8)`. -/
theorem opsFor_replace_shape_witness :
    opsFor true ⟨20, 25, [72]⟩ = [.deleteRange 20 24, .insertAt 20 [72]] ∧
    opsFor true ⟨7, 8, [73]⟩ = [.insertAt 7 [73]] :=
  ⟨(opsFor_replace_shape 20 25 [72]).1 (by decide),
   (opsFor_replace_shape 7 8 [73]).2.1 (by decide)⟩

/-- Counterexample to C4: two targets resolving to the same cell range
`[5, 9)` (identical start offsets, fully overlapping) are not rejected —
`write_table_bulk` emits an op list for both, in input order. -/
theorem write_table_bulk_overlap_cex :
    write_table_bulk [.table (some 1) ⟨[⟨[⟨[⟨some 5, some 9⟩]⟩]⟩]⟩] 1
        [⟨0, 0, [72]⟩, ⟨0, 0, [75]⟩] true =
      .ok (some [.deleteRange 5 8, .insertAt 5 [72],
                 .deleteRange 5 8, .insertAt 5 [75]]) := rfl

/-- C4 (amended): `write_table_bulk` never rejects overlapping or
duplicate-start targets; whenever resolution succeeds on at least one
requested cell it emits the op groups of every resolved target, merely
sorted by start offset descending (non-strictly: equal start offsets keep
their input order under the stable sort). -/
theorem write_table_bulk_overlap_silently_ordered
    (content : List BodyElement) (anchor : Nat) (cells : List CellReq)
    (repl : Bool) (cd : List CellData)
    (hres : resolveCells content anchor cells = .ok cd) (hne : cd ≠ []) :
    write_table_bulk content anchor cells repl =
      .ok (some (concatOps repl (sortDesc cd))) ∧
    (sortDesc cd).Perm cd ∧
    (sortDesc cd).Pairwise (fun a b => b.start_idx ≤ a.start_idx) := by
  refine ⟨?_, sortDesc_perm cd, sortDesc_sorted cd⟩
  unfold write_table_bulk
  rw [hres]
  cases cd with
  | nil => exact absurd rfl hne
  | cons c cs => rfl

/-- Witness for the amended C4 at two fully-overlapping targets. -/
theorem write_table_bulk_overlap_silently_ordered_witness :
    write_table_bulk [.table (some 1) ⟨[⟨[⟨[⟨some 5, some 9⟩]⟩]⟩]⟩] 1
        [⟨0, 0, [81]⟩, ⟨0, 0, [82]⟩] true =
      .ok (some (concatOps true (sortDesc [⟨5, 9, [81]⟩, ⟨5, 9, [82]⟩]))) ∧
    (sortDesc [⟨5, 9, [81]⟩, ⟨5, 9, [82]⟩]).Perm [⟨5, 9, [81]⟩, ⟨5, 9, [82]⟩] ∧
    (sortDesc [⟨5, 9, [81]⟩, ⟨5, 9, [82]⟩]).Pairwise
      (fun a b => b.start_idx ≤ a.start_idx) :=
  write_table_bulk_overlap_silently_ordered _ 1 _ true _ rfl (by decide)

theorem resolveCells_filterMap (content : List BodyElement) (anchor : Nat) :
    ∀ (cells : List CellReq) (cd : List CellData),
      resolveCells content anchor cells = .ok cd →
      cd = cells.filterMap (fun c =>
        match lookupCell content anchor c.row c.column with
        | .ok (some (s, e)) => some ⟨s, e, c.text⟩
        | _ => none) := by
  intro cells
  induction cells with
  | nil =>
      intro cd h
      simp only [resolveCells] at h
      cases h
      rfl
  | cons c cs ih =>
      intro cd h
      simp only [resolveCells] at h
      cases hl : lookupCell content anchor c.row c.column with
      | error e => rw [hl] at h; cases h
      | ok o =>
          cases o with
          | none =>
              rw [hl] at h
              simp only [List.filterMap_cons, hl]
              exact ih cd h
          | some se =>
              obtain ⟨s, e⟩ := se
              rw [hl] at h
              cases hr : resolveCells content anchor cs with
              | error err => rw [hr] at h; cases h
              | ok rest =>
                  rw [hr] at h
                  cases h
                  simp only [List.filterMap_cons, hl]
                  rw [← ih rest hr]

/-- Counterexample to C5: a request naming one resolvable cell and one
unresolvable cell (row 5 of a 1×1 table) is not all-or-nothing — the
unresolvable target reports "not found", yet an op list covering only the
resolvable target is still produced. -/
theorem write_table_bulk_not_all_or_nothing_cex :
    lookupCell [.table (some 1) ⟨[⟨[⟨[⟨some 5, some 9⟩]⟩]⟩]⟩] 1 5 5 =
      .ok none ∧
    write_table_bulk [.table (some 1) ⟨[⟨[⟨[⟨some 5, some 9⟩]⟩]⟩]⟩] 1
        [⟨0, 0, [72]⟩, ⟨5, 5, [75]⟩] true =
      .ok (some [.deleteRange 5 8, .insertAt 5 [72]]) :=
  ⟨rfl, rfl⟩

/-- C5 (amended): planning is not all-or-nothing — the resolved `cell_data`
is exactly the requested cells whose lookup found a range, unresolvable
requests being silently dropped; an error ("could not find any cells",
embedded `.ok none`) is returned only when no requested cell resolves,
and otherwise the emitted op list covers exactly the resolved subset. -/
theorem write_table_bulk_skips_unresolved
    (content : List BodyElement) (anchor : Nat) (cells : List CellReq)
    (repl : Bool) (cd : List CellData)
    (hres : resolveCells content anchor cells = .ok cd) :
    cd = cells.filterMap (fun c =>
      match lookupCell content anchor c.row c.column with
      | .ok (some (s, e)) => some ⟨s, e, c.text⟩
      | _ => none) ∧
    write_table_bulk content anchor cells repl =
      (if cd = [] then .ok none else .ok (some (planOps repl cd))) := by
  refine ⟨resolveCells_filterMap content anchor cells cd hres, ?_⟩
  unfold write_table_bulk
  rw [hres]
  cases cd with
  | nil => rfl
  | cons c cs => simp

/-- Witness for the amended C5: one resolvable and one unresolvable request. -/
theorem write_table_bulk_skips_unresolved_witness :
    [(⟨5, 9, [83]⟩ : CellData)] =
      List.filterMap (fun (c : CellReq) =>
        match lookupCell [.table (some 1) ⟨[⟨[⟨[⟨some 5, some 9⟩]⟩]⟩]⟩] 1
            c.row c.column with
        | .ok (some (s, e)) => some ⟨s, e, c.text⟩
        | _ => none) [⟨0, 0, [83]⟩, ⟨7, 7, [84]⟩] ∧
    write_table_bulk [.table (some 1) ⟨[⟨[⟨[⟨some 5, some 9⟩]⟩]⟩]⟩] 1
        [⟨0, 0, [83]⟩, ⟨7, 7, [84]⟩] true =
      (if ([(⟨5, 9, [83]⟩ : CellData)] : List CellData) = [] then .ok none
       else .ok (some (planOps true [⟨5, 9, [83]⟩]))) :=
  write_table_bulk_skips_unresolved
    [.table (some 1) ⟨[⟨[⟨[⟨some 5, some 9⟩]⟩]⟩]⟩] 1
    [⟨0, 0, [83]⟩, ⟨7, 7, [84]⟩] true [⟨5, 9, [83]⟩] rfl

theorem pyIndex_nonneg (l : List TableRow) (i : Int) (h1 : 0 ≤ i)
    (h2 : i < (l.length : Int)) :
    ∃ x, pyIndex l i = some x ∧ x ∈ l := by
  have hlt : i.toNat < l.length := by omega
  refine ⟨l.get ⟨i.toNat, hlt⟩, ?_, List.get_mem l i.toNat hlt⟩
  unfold pyIndex
  rw [if_pos h1, List.get?_eq_get hlt]

theorem anchorTables_cons (b : BodyElement) (rest : List BodyElement)
    (anchor : Nat) (tt : PyTable) (htt : tt ∈ anchorTables rest anchor) :
    tt ∈ anchorTables (b :: rest) anchor := by
  cases b with
  | para si => simpa [anchorTables, List.filterMap_cons] using htt
  | table si t' =>
      cases si with
      | none => simpa [anchorTables, List.filterMap_cons] using htt
      | some a =>
          by_cases ha : a = anchor
          · simp only [anchorTables, List.filterMap_cons, ha, if_pos rfl]
            exact List.mem_cons_of_mem t' htt
          · simpa [anchorTables, List.filterMap_cons, ha] using htt

theorem anchorTables_head (rest : List BodyElement) (anchor : Nat)
    (tt : PyTable) :
    tt ∈ anchorTables (.table (some anchor) tt :: rest) anchor := by
  simp [anchorTables, List.filterMap_cons]

/-- Counterexample to C8: on a 1×1 table, the out-of-range request
`(row_index = -2, column_index = 5)` — whose column is ≥ the table's column
count, so the claim demands `NotFound` — raises `IndexError` (the negative
row passes the `row_index < len(tableRows)` check and then indexes out of
range from the end) instead of returning `NotFound`. -/
theorem lookupCell_oob_raises_cex :
    (∀ r ∈ ({ tableRows := [⟨[⟨[⟨some 5, some 9⟩]⟩]⟩] } : PyTable).tableRows,
      (r.tableCells.length : Int) ≤ 5) ∧
    lookupCell [.table (some 1) ⟨[⟨[⟨[⟨some 5, some 9⟩]⟩]⟩]⟩] 1 (-2) 5 =
      .error () :=
  ⟨by decide, rfl⟩

/-- C8 (amended): for non-negative indices, the cell locator's bounds checks
make any request with `row ≥ rows` or `column ≥ columns` report `NotFound`
(`(None, None)`), never an out-of-bounds read or a raise; with a negative
row index an out-of-range column can instead raise `IndexError`. -/
theorem lookupCell_oob_nonneg_notfound
    (content : List BodyElement) (anchor : Nat) (t : PyTable) (row col : Int)
    (ht : ∀ tt ∈ anchorTables content anchor, tt = t)
    (hr : 0 ≤ row) (hc : 0 ≤ col)
    (hoob : (t.tableRows.length : Int) ≤ row ∨
      ∀ r ∈ t.tableRows, (r.tableCells.length : Int) ≤ col) :
    lookupCell content anchor row col = .ok none := by
  induction content with
  | nil => rfl
  | cons b rest ih =>
      have hrest : ∀ tt ∈ anchorTables rest anchor, tt = t :=
        fun tt htt => ht tt (anchorTables_cons b rest anchor tt htt)
      cases b with
      | para si => exact ih hrest
      | table si tt =>
          simp only [lookupCell]
          by_cases hsi : si = some anchor
          · subst hsi
            have htt : tt = t := ht tt (anchorTables_head rest anchor tt)
            subst htt
            rw [if_pos rfl]
            rcases hoob with h1 | h1
            · rw [if_neg (by omega : ¬ row < (tt.tableRows.length : Int))]
              exact ih hrest
            · by_cases hrl : row < (tt.tableRows.length : Int)
              · rw [if_pos hrl]
                obtain ⟨r, hpy, hmem⟩ := pyIndex_nonneg tt.tableRows row hr hrl
                simp only [hpy]
                rw [if_neg (by have := h1 r hmem; omega :
                  ¬ col < (r.tableCells.length : Int))]
                exact ih hrest
              · rw [if_neg hrl]
                exact ih hrest
          · rw [if_neg hsi]
            exact ih hrest

/-- Witness for the amended C8: requesting `(row = rows, column = 0)` on a
1×1 table reports `NotFound`. -/
theorem lookupCell_oob_nonneg_notfound_witness :
    lookupCell [.table (some 1) ⟨[⟨[⟨[⟨some 5, some 9⟩]⟩]⟩]⟩] 1 1 0 =
      .ok none :=
  lookupCell_oob_nonneg_notfound
    [.table (some 1) ⟨[⟨[⟨[⟨some 5, some 9⟩]⟩]⟩]⟩] 1
    ⟨[⟨[⟨[⟨some 5, some 9⟩]⟩]⟩]⟩ 1 0
    (by decide) (by decide) (by decide) (Or.inl (by decide))

/-- C9: the locator's bounds check only guards the upper bound — a negative
`row_index` or `column_index` passes the `<` check and resolves by Python
negative indexing to the row or column counted from the end, whose cell
content range is then returned (not `NotFound`). -/
theorem lookupCell_negative_index_resolves
    (content : List BodyElement) (anchor : Nat) (t : PyTable)
    (row col : Int) (r : TableRow) (cell : TableCell)
    (ht : anchorTables content anchor = [t])
    (hneg : row < 0 ∨ col < 0)
    (hrow : (if 0 ≤ row then t.tableRows.get? row.toNat
             else t.tableRows.get? (t.tableRows.length - (-row).toNat)) = some r)
    (hrowb : row < 0 → -row ≤ (t.tableRows.length : Int))
    (hcol : (if 0 ≤ col then r.tableCells.get? col.toNat
             else r.tableCells.get? (r.tableCells.length - (-col).toNat)) = some cell)
    (hcolb : col < 0 → -col ≤ (r.tableCells.length : Int))
    (hcontent : cell.content ≠ []) :
    lookupCell content anchor row col = .ok (cellRange cell) ∧
    cellRange cell ≠ none := by
  have hcrne : cellRange cell ≠ none := by
    cases hcc : cell.content with
    | nil => exact absurd hcc hcontent
    | cons e0 es => simp [cellRange, hcc]
  have hrowlt : row < (t.tableRows.length : Int) := by
    by_cases h : 0 ≤ row
    · rw [if_pos h] at hrow
      obtain ⟨hlt, -⟩ := List.get?_eq_some.mp hrow
      omega
    · push_neg at h
      omega
  have hcollt : col < (r.tableCells.length : Int) := by
    by_cases h : 0 ≤ col
    · rw [if_pos h] at hcol
      obtain ⟨hlt, -⟩ := List.get?_eq_some.mp hcol
      omega
    · push_neg at h
      omega
  have hpyr : pyIndex t.tableRows row = some r := by
    unfold pyIndex
    by_cases h : 0 ≤ row
    · rw [if_pos h]
      rw [if_pos h] at hrow
      exact hrow
    · rw [if_neg h]
      rw [if_neg h] at hrow
      rw [if_pos (hrowb (by omega))]
      exact hrow
  have hpyc : pyIndex r.tableCells col = some cell := by
    unfold pyIndex
    by_cases h : 0 ≤ col
    · rw [if_pos h]
      rw [if_pos h] at hcol
      exact hcol
    · rw [if_neg h]
      rw [if_neg h] at hcol
      rw [if_pos (hcolb (by omega))]
      exact hcol
  refine ⟨?_, hcrne⟩
  obtain ⟨se, hse⟩ := Option.ne_none_iff_exists'.mp hcrne
  induction content with
  | nil => exact absurd ht (by simp [anchorTables])
  | cons b rest ih =>
      cases b with
      | para si =>
          have ht' : anchorTables rest anchor = [t] := by
            simpa [anchorTables, List.filterMap_cons] using ht
          exact ih ht'
      | table si tt =>
          cases si with
          | none =>
              have ht' : anchorTables rest anchor = [t] := by
                simpa [anchorTables, List.filterMap_cons] using ht
              exact ih ht'
          | some a =>
              by_cases ha : a = anchor
              · subst ha
                have ht2 : tt :: anchorTables rest a = [t] := by
                  simpa [anchorTables, List.filterMap_cons] using ht
                have htt : tt = t := (List.cons.injEq _ _ _ _ ▸ ht2).1
                subst htt
                simp only [lookupCell, if_pos rfl, if_pos hrowlt, hpyr,
                  if_pos hcollt, hpyc, hse, if_true]
              · have ht' : anchorTables rest anchor = [t] := by
                  simpa [anchorTables, List.filterMap_cons, ha] using ht
                simp only [lookupCell,
                  if_neg (fun hx => ha (Option.some.injEq a anchor ▸ hx))]
                exact ih ht'

/-- Witness for C9: `(row_index, column_index) = (-1, -1)` on a 1×1 table
resolves to the last row's last cell and returns its content range. -/
theorem lookupCell_negative_index_resolves_witness :
    lookupCell [.table (some 1) ⟨[⟨[⟨[⟨some 5, some 9⟩]⟩]⟩]⟩] 1 (-1) (-1) =
      .ok (cellRange ⟨[⟨some 5, some 9⟩]⟩) ∧
    cellRange (⟨[⟨some 5, some 9⟩]⟩ : TableCell) ≠ none :=
  lookupCell_negative_index_resolves
    [.table (some 1) ⟨[⟨[⟨[⟨some 5, some 9⟩]⟩]⟩]⟩] 1
    ⟨[⟨[⟨[⟨some 5, some 9⟩]⟩]⟩]⟩ (-1) (-1)
    ⟨[⟨[⟨some 5, some 9⟩]⟩]⟩ ⟨[⟨some 5, some 9⟩]⟩
    rfl (Or.inl (by decide)) (by decide) (by decide) (by decide) (by decide)
    (by decide)

theorem gridMatch_none_iff (s : List Nat) :
    gridMatch s = none ↔ munchRest s ≠ [] := by
  simp only [gridMatch, munchRest]
  by_cases h :
      ((if ((s.dropWhile isLetter).dropWhile isDigitCp).head? = some 58 then
          ((s.dropWhile isLetter).dropWhile isDigitCp).tail
        else (s.dropWhile isLetter).dropWhile isDigitCp).dropWhile
          isLetter).dropWhile isDigitCp = [] <;>
    simp [h]

theorem dropWhile_all_nil {p : Nat → Bool} {l : List Nat}
    (h : ∀ x ∈ l, p x) : l.dropWhile p = [] := by
  simpa using @List.dropWhile_append_of_pos Nat p l [] h

theorem notLetter_of_digit {x : Nat} (h : isDigitCp x = true) :
    ¬ isLetter x = true := by
  simp only [isLetter, isDigitCp, decide_eq_true_eq] at h ⊢
  omega

theorem notDigit_of_letter {x : Nat} (h : isLetter x = true) :
    ¬ isDigitCp x = true := by
  simp only [isLetter, isDigitCp, decide_eq_true_eq] at h ⊢
  omega

theorem matches_of_munchRest (s : List Nat) (h : munchRest s = []) :
    MatchesGridPattern s := by
  simp only [munchRest] at h
  set r1 := s.dropWhile isLetter with hr1
  set r2 := r1.dropWhile isDigitCp with hr2
  by_cases hcol : r2.head? = some 58
  · rw [if_pos hcol] at h
    obtain ⟨t, ht⟩ : ∃ t, r2 = 58 :: t := by
      cases hr : r2 with
      | nil => rw [hr] at hcol; simp at hcol
      | cons y u =>
          rw [hr] at hcol
          simp only [List.head?_cons, Option.some.injEq] at hcol
          exact ⟨u, by rw [hcol]⟩
    rw [ht] at h
    simp only [List.tail_cons] at h
    refine ⟨s.takeWhile isLetter, r1.takeWhile isDigitCp, t.takeWhile isLetter,
      (t.dropWhile isLetter).takeWhile isDigitCp,
      fun x hx => List.mem_takeWhile_imp hx, fun x hx => List.mem_takeWhile_imp hx,
      fun x hx => List.mem_takeWhile_imp hx, fun x hx => List.mem_takeWhile_imp hx,
      Or.inr ?_⟩
    have e4 : t.dropWhile isLetter =
        (t.dropWhile isLetter).takeWhile isDigitCp := by
      conv_lhs => rw [← List.takeWhile_append_dropWhile isDigitCp (t.dropWhile isLetter)]
      rw [h, List.append_nil]
    have key : s = s.takeWhile isLetter ++ (r1.takeWhile isDigitCp ++
        (58 :: (t.takeWhile isLetter ++
          (t.dropWhile isLetter).takeWhile isDigitCp))) := by
      rw [← e4, List.takeWhile_append_dropWhile, ← ht, hr2,
        List.takeWhile_append_dropWhile, hr1, List.takeWhile_append_dropWhile]
    conv_lhs => rw [key]
    simp [List.append_assoc]
  · rw [if_neg hcol] at h
    refine ⟨s.takeWhile isLetter, r1.takeWhile isDigitCp, r2.takeWhile isLetter,
      (r2.dropWhile isLetter).takeWhile isDigitCp,
      fun x hx => List.mem_takeWhile_imp hx, fun x hx => List.mem_takeWhile_imp hx,
      fun x hx => List.mem_takeWhile_imp hx, fun x hx => List.mem_takeWhile_imp hx,
      Or.inl ?_⟩
    have e4 : r2.dropWhile isLetter =
        (r2.dropWhile isLetter).takeWhile isDigitCp := by
      conv_lhs => rw [← List.takeWhile_append_dropWhile isDigitCp (r2.dropWhile isLetter)]
      rw [h, List.append_nil]
    have key : s = s.takeWhile isLetter ++ (r1.takeWhile isDigitCp ++
        (r2.takeWhile isLetter ++
          (r2.dropWhile isLetter).takeWhile isDigitCp)) := by
      rw [← e4, List.takeWhile_append_dropWhile, hr2,
        List.takeWhile_append_dropWhile, hr1, List.takeWhile_append_dropWhile]
    conv_lhs => rw [key]
    simp [List.append_assoc]

theorem munchRest_of_matches (s : List Nat) (hm : MatchesGridPattern s) :
    munchRest s = [] := by
  obtain ⟨a, b, c, d, ha, hb, hc, hd, hcase⟩ := hm
  have hdnil : d.dropWhile isDigitCp = [] := dropWhile_all_nil hd
  have hstep34 : ((c ++ d).dropWhile isLetter).dropWhile isDigitCp = [] := by
    rw [List.dropWhile_append_of_pos hc]
    cases hd0 : d with
    | nil => simp
    | cons x t =>
        have hx := hd x (by rw [hd0]; exact List.mem_cons_self x t)
        rw [List.dropWhile_cons_of_neg (notLetter_of_digit hx), ← hd0]
        exact hdnil
  have h58l : ¬ isLetter 58 = true := by decide
  have h58d : ¬ isDigitCp 58 = true := by decide
  rcases hcase with hs | hs <;> subst hs <;> simp only [munchRest]
  · rw [List.append_assoc, List.dropWhile_append_of_pos ha]
    cases hb0 : b with
    | nil =>
        simp only [List.nil_append]
        rw [hstep34]
        simp [hstep34]
    | cons x bt =>
        have hx := hb x (by rw [hb0]; exact List.mem_cons_self x bt)
        simp only [List.cons_append]
        rw [List.dropWhile_cons_of_neg (notLetter_of_digit hx), ← List.cons_append,
          ← hb0, List.dropWhile_append_of_pos hb]
        cases hc0 : c with
        | nil =>
            simp only [List.nil_append]
            rw [hdnil]
            simp [hdnil]
        | cons y ct =>
            have hy := hc y (by rw [hc0]; exact List.mem_cons_self y ct)
            have hy58 : y ≠ 58 := by
              simp only [isLetter, decide_eq_true_eq] at hy
              omega
            simp only [List.cons_append]
            rw [List.dropWhile_cons_of_neg (notDigit_of_letter hy)]
            rw [if_neg (by simp [hy58])]
            rw [← List.cons_append, ← hc0]
            exact hstep34
  · rw [List.append_assoc, List.dropWhile_append_of_pos ha]
    have hcolon : ∀ X : List Nat,
        ((if (58 :: X).head? = some 58 then (58 :: X).tail
          else 58 :: X).dropWhile isLetter).dropWhile isDigitCp =
          ((X.dropWhile isLetter).dropWhile isDigitCp) := by
      intro X
      rw [if_pos (by simp)]
      simp only [List.tail_cons]
    cases hb0 : b with
    | nil =>
        simp only [List.nil_append]
        rw [List.dropWhile_cons_of_neg h58l, List.dropWhile_cons_of_neg h58d,
          hcolon]
        exact hstep34
    | cons x bt =>
        have hx := hb x (by rw [hb0]; exact List.mem_cons_self x bt)
        simp only [List.cons_append]
        rw [List.dropWhile_cons_of_neg (notLetter_of_digit hx), ← List.cons_append,
          ← hb0, List.dropWhile_append_of_pos hb,
          List.dropWhile_cons_of_neg h58d, hcolon]
        exact hstep34

theorem takeWhile_all {p : Nat → Bool} {l : List Nat}
    (h : ∀ x ∈ l, p x) : l.takeWhile p = l := by
  simpa using @List.takeWhile_append_of_pos Nat p l [] h

/-- C7: after stripping any sheet prefix (and uppercasing), `_parse_a1_range`
raises `ValueError` exactly when the text is not in the language of the
two-token grid pattern `([A-Z]*)(\d*):?([A-Z]*)(\d*)`; an end bound that
precedes the start bound is not rejected — `"D10:A1"` parses to a
reversed-span GridRange. -/
theorem parse_a1_range_fail_iff_pattern (sid : Int) (s : List Nat) :
    (parse_a1_range s sid = none ↔
      ¬ MatchesGridPattern ((stripSheet s).map toUpperCp)) ∧
    parse_a1_range [68, 49, 48, 58, 65, 49] sid =
      some ⟨sid, some 9, some 1, some 3, some 1⟩ := by
  constructor
  · unfold parse_a1_range
    cases hg : gridMatch ((stripSheet s).map toUpperCp) with
    | none =>
        simp only [iff_true_intro rfl, true_iff]
        exact fun hm =>
          ((gridMatch_none_iff _).mp hg) (munchRest_of_matches _ hm)
    | some g =>
        obtain ⟨g1, g2, g3, g4⟩ := g
        constructor
        · intro h
          exact absurd h (by simp)
        · intro hn
          exfalso
          apply hn
          apply matches_of_munchRest
          by_contra hne
          rw [(gridMatch_none_iff _).mpr hne] at hg
          cases hg
  · rfl

/-- C6: the range parser's concrete contract — `"A1:D10"` gives rows
`[0, 10)` and columns `[0, 4)`, `"A:D"` gives columns `[0, 4)` with row
bounds absent, `"5:5"` gives rows `[4, 5)` with column bounds absent — and,
in general, a single column-letters+row-digits token gets end bounds
defaulted to start+1 with columns converted base-26, A=1..Z=26, minus 1. -/
theorem parse_a1_range_round_trip (sid : Int) :
    parse_a1_range [65, 49, 58, 68, 49, 48] sid =
      some ⟨sid, some 0, some 10, some 0, some 4⟩ ∧
    parse_a1_range [65, 58, 68] sid = some ⟨sid, none, none, some 0, some 4⟩ ∧
    parse_a1_range [53, 58, 53] sid = some ⟨sid, some 4, some 5, none, none⟩ ∧
    ∀ (c r : List Nat), c ≠ [] → (∀ x ∈ c, isLetter x) →
      r ≠ [] → (∀ x ∈ r, isDigitCp x) →
      parse_a1_range (c ++ r) sid =
        some ⟨sid, some ((natOfDigits r : Int) - 1), some (natOfDigits r : Int),
          some (colIndex c), some (colIndex c + 1)⟩ := by
  refine ⟨rfl, rfl, rfl, ?_⟩
  intro c r hcne hcl hrne hrd
  have hstrip : stripSheet (c ++ r) = c ++ r := by
    rw [stripSheet, if_neg]
    intro hmem
    rcases List.mem_append.mp hmem with h | h
    · have := hcl 33 h
      simp only [isLetter, decide_eq_true_eq] at this
      omega
    · have := hrd 33 h
      simp only [isDigitCp, decide_eq_true_eq] at this
      omega
  have hupper : (c ++ r).map toUpperCp = c ++ r := by
    have : ∀ x ∈ c ++ r, toUpperCp x = x := by
      intro x hx
      rcases List.mem_append.mp hx with h | h
      · have := hcl x h
        simp only [isLetter, decide_eq_true_eq] at this
        unfold toUpperCp
        rw [if_neg (by omega)]
      · have := hrd x h
        simp only [isDigitCp, decide_eq_true_eq] at this
        unfold toUpperCp
        rw [if_neg (by omega)]
    calc (c ++ r).map toUpperCp = (c ++ r).map id :=
          List.map_congr_left (fun x hx => this x hx)
      _ = c ++ r := List.map_id (c ++ r)
  obtain ⟨y, t, hr0⟩ : ∃ y t, r = y :: t := by
    cases r with
    | nil => exact absurd rfl hrne
    | cons y t => exact ⟨y, t, rfl⟩
  have hmatch : gridMatch (c ++ r) = some (c, r, [], []) := by
    simp only [gridMatch]
    rw [List.takeWhile_append_of_pos hcl, List.dropWhile_append_of_pos hcl]
    rw [hr0, List.takeWhile_cons_of_neg (notLetter_of_digit (hrd y (by rw [hr0]; exact List.mem_cons_self y t))),
      List.dropWhile_cons_of_neg (notLetter_of_digit (hrd y (by rw [hr0]; exact List.mem_cons_self y t))),
      ← hr0, takeWhile_all hrd, dropWhile_all_nil hrd]
    simp
  rw [parse_a1_range, hstrip, hupper, hmatch]
  simp only [hcne, hrne, ne_eq, not_false_iff, if_true, List.append_nil]
  simp [hcne, hrne]

/-- Witness for C6's general single-token clause at the cell text `"B2"`. -/
theorem parse_a1_range_round_trip_witness :
    parse_a1_range ([66] ++ [50]) 7 =
      some ⟨7, some ((natOfDigits [50] : Int) - 1), some (natOfDigits [50] : Int),
        some (colIndex [66]), some (colIndex [66] + 1)⟩ :=
  (parse_a1_range_round_trip 7).2.2.2 [66] [50]
    (by decide) (by decide) (by decide) (by decide)

theorem toUpperCp_idem (x : Nat) : toUpperCp (toUpperCp x) = toUpperCp x := by
  simp only [toUpperCp]
  split_ifs <;> omega

theorem toUpperCp_bang_iff (x : Nat) : toUpperCp x = 33 ↔ x = 33 := by
  simp only [toUpperCp]
  split_ifs with h <;> omega

theorem dropWhile_bang_map (l : List Nat) :
    (l.map toUpperCp).dropWhile (fun c => c != 33) =
      (l.dropWhile (fun c => c != 33)).map toUpperCp := by
  induction l with
  | nil => rfl
  | cons x t ih =>
      simp only [List.map_cons, List.dropWhile_cons]
      by_cases hx : x = 33
      · rw [if_neg (by simp [hx, toUpperCp_bang_iff]), if_neg (by simp [hx])]
        rfl
      · rw [if_pos (by simp [(toUpperCp_bang_iff x).not.mpr hx] : (toUpperCp x != 33) = true),
          if_pos (by simp [hx] : (x != 33) = true), ih]

theorem takeWhile_bang_map (l : List Nat) :
    (l.map toUpperCp).takeWhile (fun c => c != 33) =
      (l.takeWhile (fun c => c != 33)).map toUpperCp := by
  induction l with
  | nil => rfl
  | cons x t ih =>
      simp only [List.map_cons, List.takeWhile_cons]
      by_cases hx : x = 33
      · rw [if_neg (by simp [hx, toUpperCp_bang_iff]), if_neg (by simp [hx])]
        rfl
      · rw [if_pos (by simp [(toUpperCp_bang_iff x).not.mpr hx] : (toUpperCp x != 33) = true),
          if_pos (by simp [hx] : (x != 33) = true), ih]
        rfl

/-- C10: the parser is case-insensitive — parsing any range text gives the
same GridRange as parsing its uppercased form, because the only use of the
text after the sheet strip is through `range_str.upper()` and uppercasing is
idempotent and transparent to the `'!'` split. -/
theorem parse_a1_range_case_insensitive (s : List Nat) (sid : Int) :
    parse_a1_range s sid = parse_a1_range (s.map toUpperCp) sid := by
  have hmm : (33 ∈ s.map toUpperCp) ↔ (33 ∈ s) := by
    simp only [List.mem_map]
    constructor
    · rintro ⟨x, hx, hux⟩
      rw [← (toUpperCp_bang_iff x).mp hux]
      exact hx
    · intro h33
      exact ⟨33, h33, by decide⟩
  have hstripmap : stripSheet (s.map toUpperCp) = (stripSheet s).map toUpperCp := by
    unfold stripSheet
    by_cases h33 : 33 ∈ s
    · rw [if_pos (hmm.mpr h33), if_pos h33, dropWhile_bang_map,
        ← List.map_tail, takeWhile_bang_map]
    · rw [if_neg (fun hx => h33 (hmm.mp hx)), if_neg h33]
  have hmapidem : ((stripSheet s).map toUpperCp).map toUpperCp =
      (stripSheet s).map toUpperCp := by
    rw [List.map_map]
    exact List.map_congr_left (fun x _ => toUpperCp_idem x)
  unfold parse_a1_range
  rw [hstripmap, hmapidem]
